import Mathlib

/-!
Shallow embedding of the go-ds-gcs datastore (ipfs-shipyard/go-ds-gcs).

The embedding covers src/metadata.go (MetadataCache) and src/gcsds.go
(GCSDatastore: Put, Get, Has, GetSize, Delete, Sync, Query, Batch,
LoadMetadata, GCSPath), together with the pieces of the Go standard
library and collaborators the code calls into:

* Go strings are modelled as `List Char` (`Str`), byte slices as
  `List Nat` (`Bytes`).
* The GCS bucket reachable through the `storage.Client` is modelled as
  an association list from object name to content (`Remote`).  The
  object listing used by LoadMetadata returns the objects whose name
  has the configured GCS prefix as a string-prefix, exactly like a
  `storage.Query{Prefix: ...}` listing; an object's `Attrs.Size` is the
  length of its content.
* `path.Join` / `path.Clean` from Go's `path` package are modelled
  componentwise (`pathClean`, `pathJoin2`), and `ds.NewKey(...).String()`
  from go-datastore is modelled by `dsKeyStr`.
* Go maps are modelled as association lists with replace-or-append
  update (Go map iteration order is unspecified; the list order stands
  in for one arbitrary such order).
* The hashicorp LRU cache is modelled as a most-recently-used-first
  list bounded by its capacity (`LRUCache`).
* Remote transport failures that the code branches on are surfaced as
  explicit boolean oracles (`writeOk` for the Put writer close,
  `transportFail` for Delete); everything else about the remote is
  determined by the modelled bucket contents.
-/

/-- Go `string`, modelled as a list of characters. -/
abbrev Str : Type := List Char

/-- Go `[]byte`, modelled as a list of byte values. -/
abbrev Bytes : Type := List Nat

/-- Helper for Go `strings.HasPrefix`: `isPrefixL p s` is true when `p`
is a prefix of `s`. -/
def isPrefixL : Str → Str → Bool
  | [], _ => true
  | _ :: _, [] => false
  | a :: as, b :: bs => decide (a = b) && isPrefixL as bs

/-- Go `strings.HasPrefix s p`. -/
def hasPrefixStr (s p : Str) : Bool := isPrefixL p s

/-- Go `strings.TrimPrefix s p`: drops `p` from the front of `s` when it
is a prefix, otherwise returns `s` unchanged. -/
def TrimPrefix (s p : Str) : Str :=
  if isPrefixL p s then s.drop p.length else s

/-- The path segment `..`, used by Go `path.Clean`. -/
def dotdotSeg : Str := ['.', '.']

/-- Split a Go path on `/` characters (Go `strings.Split(s, "/")`). -/
def splitSlash : Str → List Str
  | [] => [[]]
  | c :: rest =>
    if c = '/' then [] :: splitSlash rest
    else
      match splitSlash rest with
      | [] => [[c]]
      | s :: ss => (c :: s) :: ss

/-- Join path segments with `/` (inverse direction of `splitSlash`). -/
def intercalateSlash : List Str → Str
  | [] => []
  | [s] => s
  | s :: rest => s ++ '/' :: intercalateSlash rest

/-- Segment processing loop of Go `path.Clean`: drops a preceding
segment for each `..` (except that leading `..` segments of an unrooted
path are kept, and `..` at the root of a rooted path is dropped).  The
accumulator holds the kept segments in reverse order. -/
def cleanLoop (rooted : Bool) : List Str → List Str → List Str
  | acc, [] => acc.reverse
  | acc, seg :: rest =>
    if seg = dotdotSeg then
      match acc with
      | [] => if rooted then cleanLoop rooted [] rest else cleanLoop rooted [seg] rest
      | top :: pre =>
        if top = dotdotSeg then cleanLoop rooted (seg :: top :: pre) rest
        else cleanLoop rooted pre rest
    else cleanLoop rooted (seg :: acc) rest

/-- Go `path.Clean`: collapses repeated slashes, eliminates `.` and `..`
segments, returns `.` for an empty result of an unrooted path. -/
def pathClean (s : Str) : Str :=
  let rooted : Bool := decide (s.head? = some '/')
  let segs := (splitSlash s).filter (fun seg => !decide (seg = []) && !decide (seg = ['.']))
  let out := cleanLoop rooted [] segs
  if rooted then '/' :: intercalateSlash out
  else if out = [] then ['.']
  else intercalateSlash out

/-- Go `path.Join(a, b)`: empty elements are skipped, the rest are
joined with `/` and cleaned; all-empty input yields the empty path. -/
def pathJoin2 (a b : Str) : Str :=
  if a = [] && b = [] then []
  else if a = [] then pathClean b
  else if b = [] then pathClean a
  else pathClean (a ++ '/' :: b)

/-- `GCSPath` of src/gcsds.go as a function of the configured prefix:
`path.Join(prefix, key)`. -/
def GCSPathOf (p k : Str) : Str := pathJoin2 p k

/-- go-datastore `ds.NewKey(s).String()`: prepends `/` when missing and
cleans the path (`Key.Clean` in go-datastore). -/
def dsKeyStr (s : Str) : Str :=
  if s = [] then ['/']
  else if s.head? = some '/' then pathClean s
  else pathClean ('/' :: s)

/-- Error values observable from the adapter.  `ErrNotFound` is
go-datastore's `ds.ErrNotFound`; `ErrTransport` stands for any other
remote I/O error propagated verbatim; `UnsupportedQuery` is the
`fmt.Errorf("GCSDatastore: Orders and Filters not supported")` error. -/
inductive DSError where
  | ErrNotFound : DSError
  | ErrTransport : DSError
  | UnsupportedQuery : DSError
deriving DecidableEq, Repr

/-- `Metadata` of src/metadata.go. -/
structure Metadata where
  Key : Str
  Size : Int
deriving DecidableEq, Repr

/-- `MetadataCache` of src/metadata.go: a Go map from key to Metadata,
modelled as an association list keyed by `Metadata.Key`. -/
structure MetadataCache where
  cache : List Metadata
deriving DecidableEq, Repr

/-- `NewMetadataCache()`. -/
def NewMetadataCache : MetadataCache := ⟨[]⟩

/-- `MetadataCache.Has`: map membership test. -/
def MetadataCache.Has (m : MetadataCache) (key : Str) : Bool :=
  (m.cache.find? (fun md => decide (md.Key = key))).isSome

/-- `MetadataCache.Get`: map lookup, `ds.ErrNotFound` when absent. -/
def MetadataCache.Get (m : MetadataCache) (key : Str) : Except DSError Metadata :=
  match m.cache.find? (fun md => decide (md.Key = key)) with
  | some md => Except.ok md
  | none => Except.error DSError.ErrNotFound

/-- `MetadataCache.Put`: Go map assignment `md.cache[key] = &Metadata{Key: key, Size: size}`
(replace the entry when the key is present, otherwise add it). -/
def MetadataCache.Put (m : MetadataCache) (key : Str) (size : Int) : MetadataCache :=
  if m.cache.any (fun md => decide (md.Key = key)) then
    ⟨m.cache.map (fun md => if md.Key = key then ⟨key, size⟩ else md)⟩
  else ⟨m.cache ++ [⟨key, size⟩]⟩

/-- `MetadataCache.Delete`: Go `delete(md.cache, key)`. -/
def MetadataCache.Delete (m : MetadataCache) (key : Str) : MetadataCache :=
  ⟨m.cache.filter (fun md => !decide (md.Key = key))⟩

/-- `MetadataCache.Size`: Go `len(md.cache)`. -/
def MetadataCache.Size (m : MetadataCache) : Nat := m.cache.length

/-- Loop body of `MetadataCache.Iterator`: collect the entries whose key
starts with the requested query prefix `p`, stopping once `count`
reaches `limit` when `limit > 0`.  The returned list is the snapshot the
iterator closure then yields one element at a time. -/
def iterCollect (p : Str) (limit : Int) : List Metadata → Int → List Metadata
  | [], _ => []
  | md :: rest, count =>
    if hasPrefixStr md.Key p then
      md :: (if 0 < limit ∧ count + 1 = limit then [] else iterCollect p limit rest (count + 1))
    else if 0 < limit ∧ count = limit then []
    else iterCollect p limit rest count

/-- `MetadataCache.Iterator`: materializes the snapshot of matching
entries (the Go closure yields exactly this list, then nil). -/
def MetadataCache.Iterator (m : MetadataCache) (p : Str) (limit : Int) : List Metadata :=
  iterCollect p limit m.cache 0

/-- The hashicorp `lru.Cache` used as data cache: entries most recently
used first, at most `cap` of them. -/
structure LRUCache where
  items : List (Str × Bytes)
  cap : Nat
deriving DecidableEq, Repr

/-- `lru.Cache.Add`: insert or refresh the key at the most-recent end,
evicting from the least-recent end past the capacity. -/
def LRUCache.Add (c : LRUCache) (key : Str) (v : Bytes) : LRUCache :=
  ⟨((key, v) :: c.items.filter (fun e => !decide (e.1 = key))).take c.cap, c.cap⟩

/-- `lru.Cache.Get`: lookup that promotes a hit to most-recently-used. -/
def LRUCache.Get (c : LRUCache) (key : Str) : Option Bytes × LRUCache :=
  match c.items.find? (fun e => decide (e.1 = key)) with
  | some e => (some e.2, ⟨(key, e.2) :: c.items.filter (fun x => !decide (x.1 = key)), c.cap⟩)
  | none => (none, c)

/-- `lru.Cache.Remove`. -/
def LRUCache.Remove (c : LRUCache) (key : Str) : LRUCache :=
  ⟨c.items.filter (fun e => !decide (e.1 = key)), c.cap⟩

/-- The contents of the GCS bucket: object name to object content. -/
abbrev Remote : Type := List (Str × Bytes)

/-- Reading an object (`Object(path).Attrs` / `NewReader`): the content
when the name is present, otherwise `storage.ErrObjectNotExist`. -/
def remoteLookup (r : Remote) (name : Str) : Option Bytes :=
  (r.find? (fun e => decide (e.1 = name))).map Prod.snd

/-- A successful `Object(path).NewWriter` write followed by `Close`:
creates or overwrites the object. -/
def remoteWrite (r : Remote) (name : Str) (v : Bytes) : Remote :=
  if r.any (fun e => decide (e.1 = name)) then
    r.map (fun e => if e.1 = name then (name, v) else e)
  else r ++ [(name, v)]

/-- `Object(path).Delete`: removing an absent object leaves the bucket
unchanged (the real call reports `storage.ErrObjectNotExist`, which the
adapter treats as success). -/
def remoteDelete (r : Remote) (name : Str) : Remote :=
  r.filter (fun e => !decide (e.1 = name))

/-- `Config` of src/gcsds.go. -/
structure Config where
  Bucket : Str
  Prefix : Str
  Workers : Int
  DataCacheItems : Nat
deriving DecidableEq, Repr

/-- `GCSDatastore` of src/gcsds.go.  The `remote` field is the state of
the GCS bucket reachable through the embedded `storage.Client`. -/
structure GCSDatastore where
  config : Config
  remote : Remote
  mdCache : MetadataCache
  dataCache : LRUCache
deriving DecidableEq, Repr

/-- `NewGCSDatastore` on its success path (client creation, `lru.New`
and `CheckBucket` succeed; `lru.New` fails unless `DataCacheItems` is
positive): empty metadata cache, empty data cache of the configured
capacity, over the given bucket contents. -/
def NewGCSDatastore (cfg : Config) (bucketContents : Remote) : GCSDatastore :=
  { config := cfg
    remote := bucketContents
    mdCache := NewMetadataCache
    dataCache := ⟨[], cfg.DataCacheItems⟩ }

/-- `GCSDatastore.GCSPath`: `path.Join(gd.Config.Prefix, key)`. -/
def GCSDatastore.GCSPath (gd : GCSDatastore) (key : Str) : Str :=
  GCSPathOf gd.config.Prefix key

/-- Metadata-cache state after `LoadMetadata` has consumed a listing:
`gd.mdCache.Put(strings.TrimPrefix(attrs.Name, prefix), attrs.Size)` for
each listed object, in listing order. -/
def loadFold (p : Str) (l : List (Str × Bytes)) (m : MetadataCache) : MetadataCache :=
  l.foldl (fun m e => m.Put (TrimPrefix e.1 p) (Int.ofNat e.2.length)) m

/-- `GCSDatastore.LoadMetadata` on its success path (the listing
iterator terminates with `iterator.Done`): every bucket object whose
name starts with the configured prefix is added to the metadata cache
under its trimmed name, with its size. -/
def GCSDatastore.LoadMetadata (gd : GCSDatastore) : GCSDatastore :=
  { gd with
    mdCache := loadFold gd.config.Prefix
      (gd.remote.filter (fun e => hasPrefixStr e.1 gd.config.Prefix)) gd.mdCache }

/-- `GCSDatastore.Put`.  `k` is `k.String()` of the go-datastore key;
`writeOk` tells whether the remote writer's `Close` succeeds.  On
success the object is written and both local structures are updated; on
failure the error is returned before either local structure is touched. -/
def GCSDatastore.Put (gd : GCSDatastore) (k : Str) (value : Bytes) (writeOk : Bool) :
    Option DSError × GCSDatastore :=
  if writeOk then
    (none,
      { gd with
        remote := remoteWrite gd.remote (gd.GCSPath k) value
        mdCache := gd.mdCache.Put k (Int.ofNat value.length)
        dataCache := gd.dataCache.Add k value })
  else (some DSError.ErrTransport, gd)

/-- `GCSDatastore.Sync`: returns nil without doing anything. -/
def GCSDatastore.Sync (gd : GCSDatastore) (_pfx : Str) : Option DSError × GCSDatastore :=
  (none, gd)

/-- `GCSDatastore.Get`: data cache first; on a miss, probe and read the
remote object, populate the data cache and return the bytes;
`ds.ErrNotFound` when the object does not exist. -/
def GCSDatastore.Get (gd : GCSDatastore) (k : Str) : Except DSError Bytes × GCSDatastore :=
  match gd.dataCache.Get k with
  | (some b, dc') => (Except.ok b, { gd with dataCache := dc' })
  | (none, _) =>
    match remoteLookup gd.remote (gd.GCSPath k) with
    | none => (Except.error DSError.ErrNotFound, gd)
    | some data => (Except.ok data, { gd with dataCache := gd.dataCache.Add k data })

/-- `GCSDatastore.Has`: `(gd.mdCache.Has(k.String()), nil)`. -/
def GCSDatastore.Has (gd : GCSDatastore) (k : Str) : Bool × Option DSError :=
  (gd.mdCache.Has k, none)

/-- `GCSDatastore.GetSize`: size from the metadata cache, or the lookup
error. -/
def GCSDatastore.GetSize (gd : GCSDatastore) (k : Str) : Except DSError Int :=
  match gd.mdCache.Get k with
  | Except.error e => Except.error e
  | Except.ok md => Except.ok md.Size

/-- `GCSDatastore.Delete`.  `transportFail` tells whether the remote
delete fails with an error other than `storage.ErrObjectNotExist`; in
that case the error is propagated before the local structures are
touched.  Otherwise (the object was deleted, or did not exist) the key
is removed from both local structures and nil is returned. -/
def GCSDatastore.Delete (gd : GCSDatastore) (k : Str) (transportFail : Bool) :
    Option DSError × GCSDatastore :=
  if transportFail then (some DSError.ErrTransport, gd)
  else
    (none,
      { gd with
        remote := remoteDelete gd.remote (gd.GCSPath k)
        mdCache := gd.mdCache.Delete k
        dataCache := gd.dataCache.Remove k })

/-- `dsq.Entry` as produced by this datastore's Query: key, size, and
the value when it was hydrated. -/
structure Entry where
  Key : Str
  Size : Int
  Value : Option Bytes
deriving DecidableEq, Repr

/-- `dsq.Query` restricted to the fields src/gcsds.go reads: Prefix,
KeysOnly, Limit, and the Orders/Filters lists (only their length is
observed, so their elements are modelled as `Unit`). -/
structure DSQuery where
  Prefix : Str
  KeysOnly : Bool
  Limit : Int
  Orders : List Unit
  Filters : List Unit
deriving DecidableEq, Repr

/-- Driving the `nextValue` closure of `GCSDatastore.Query` over the
iterator snapshot: each metadata record becomes an entry carrying key
and size; when `KeysOnly` is false the value is hydrated through
`gd.Get(ctx, ds.NewKey(v.Key))`, and a hydration failure stops the
iteration with that error.  Returns the produced entries, the error the
stream ended with (if any), and the datastore state afterwards. -/
def queryHydrate (ko : Bool) : GCSDatastore → List Metadata →
    List Entry × Option DSError × GCSDatastore
  | gd, [] => ([], none, gd)
  | gd, v :: rest =>
    if ko then
      let r := queryHydrate ko gd rest
      (⟨v.Key, v.Size, none⟩ :: r.1, r.2.1, r.2.2)
    else
      match gd.Get (dsKeyStr v.Key) with
      | (Except.error e, gd') => ([], some e, gd')
      | (Except.ok value, gd') =>
        let r := queryHydrate ko gd' rest
        (⟨v.Key, v.Size, some value⟩ :: r.1, r.2.1, r.2.2)

/-- `GCSDatastore.Query`: rejects orders/filters, otherwise snapshots
the metadata cache through `Iterator` and yields results from it. -/
def GCSDatastore.Query (gd : GCSDatastore) (q : DSQuery) :
    Except DSError (List Entry × Option DSError × GCSDatastore) :=
  if 0 < q.Orders.length ∨ 0 < q.Filters.length then
    Except.error DSError.UnsupportedQuery
  else
    Except.ok (queryHydrate q.KeysOnly gd (gd.mdCache.Iterator q.Prefix q.Limit))

/-- `GCSDatastore.Batch`: logs and returns `(nil, nil)` - a nil batch
handle together with a nil error - touching nothing. -/
def GCSDatastore.Batch (gd : GCSDatastore) : Option Unit × Option DSError × GCSDatastore :=
  (none, none, gd)

/-- A fixed bucket name for concrete instances. -/
def bktName : Str := ['b']

/-- The key string `"/abc"` (a canonical go-datastore key). -/
def keyAbc : Str := ['/', 'a', 'b', 'c']

/-- A configuration with the prefix `"ipfs"` (no trailing slash). -/
def cfgIpfs : Config := ⟨bktName, ['i', 'p', 'f', 's'], 10, 1⟩

/-- A configuration with the prefix `"ipfs/"` - the default prefix of
the kubo plugin (`defaultPrefix = "ipfs/"` in plugin/plugin.go). -/
def cfgIpfsSlash : Config := ⟨bktName, ['i', 'p', 'f', 's', '/'], 10, 1⟩

/-- `GCSDatastore.Close`: returns nil. -/
def GCSDatastore.Close (_gd : GCSDatastore) : Option DSError := none

/-! ### Association-list lemmas for the modelled Go maps -/

/-- After a replace-style map update, looking up the updated key finds
the new record. -/
theorem find_map_upsert (l : List Metadata) (k : Str) (s : Int)
    (h : l.any (fun md => decide (md.Key = k)) = true) :
    (l.map (fun md => if md.Key = k then ⟨k, s⟩ else md)).find?
      (fun md => decide (md.Key = k)) = some ⟨k, s⟩ := by
  rw [List.find?_map]
  have hpe : ((fun md => decide (md.Key = k)) ∘
      (fun md => if md.Key = k then (⟨k, s⟩ : Metadata) else md))
      = fun md => decide (md.Key = k) := by
    funext md
    by_cases hk : md.Key = k <;> simp [hk]
  rw [hpe]
  obtain ⟨md₀, hfind⟩ : ∃ x, l.find? (fun md => decide (md.Key = k)) = some x := by
    cases hf : l.find? (fun md => decide (md.Key = k)) with
    | some x => exact ⟨x, rfl⟩
    | none =>
      rw [List.find?_eq_none] at hf
      rw [List.any_eq_true] at h
      obtain ⟨x, hx, hpx⟩ := h
      exact absurd hpx (hf x hx)
  have hk0 : md₀.Key = k := by simpa using List.find?_some hfind
  rw [hfind]
  simp [hk0]

/-- A replace-style map update leaves lookups of other keys unchanged. -/
theorem find_map_upsert_other (l : List Metadata) (k k' : Str) (s : Int) (hne : k' ≠ k) :
    (l.map (fun md => if md.Key = k then ⟨k, s⟩ else md)).find?
      (fun md => decide (md.Key = k'))
      = l.find? (fun md => decide (md.Key = k')) := by
  rw [List.find?_map]
  have hpe : ((fun md => decide (md.Key = k')) ∘
      (fun md => if md.Key = k then (⟨k, s⟩ : Metadata) else md))
      = fun md => decide (md.Key = k') := by
    funext md
    by_cases hk : md.Key = k <;> simp [hk]
  rw [hpe]
  cases hf : l.find? (fun md => decide (md.Key = k')) with
  | none => simp
  | some x =>
    have hx : x.Key = k' := by simpa using List.find?_some hf
    have : ¬x.Key = k := by
      rw [hx]
      exact hne
    simp [this]

/-- `MetadataCache.Put` then lookup of the same key. -/
theorem mdPut_find_self (m : MetadataCache) (k : Str) (s : Int) :
    (m.Put k s).cache.find? (fun md => decide (md.Key = k)) = some ⟨k, s⟩ := by
  by_cases h : m.cache.any (fun md => decide (md.Key = k))
  · simp only [MetadataCache.Put, h, if_true]
    exact find_map_upsert m.cache k s h
  · simp only [MetadataCache.Put, h, if_false, Bool.false_eq_true]
    rw [List.find?_append]
    have hnone : m.cache.find? (fun md => decide (md.Key = k)) = none := by
      rw [List.find?_eq_none]
      intro x hx hpx
      rw [Bool.not_eq_true] at h
      rw [List.any_eq_false] at h
      exact h x hx hpx
    rw [hnone]
    simp

/-- `MetadataCache.Put` leaves lookups of other keys unchanged. -/
theorem mdPut_find_other (m : MetadataCache) (k k' : Str) (s : Int) (hne : k' ≠ k) :
    (m.Put k s).cache.find? (fun md => decide (md.Key = k'))
      = m.cache.find? (fun md => decide (md.Key = k')) := by
  by_cases h : m.cache.any (fun md => decide (md.Key = k))
  · simp only [MetadataCache.Put, h, if_true]
    exact find_map_upsert_other m.cache k k' s hne
  · simp only [MetadataCache.Put, h, if_false, Bool.false_eq_true]
    rw [List.find?_append]
    cases hf : m.cache.find? (fun md => decide (md.Key = k')) with
    | some x => simp
    | none =>
      have hkk : ¬k = k' := fun hkk => hne hkk.symm
      simp [hkk]

/-- `MetadataCache.Delete` then lookup of the same key. -/
theorem mdDelete_find_self (m : MetadataCache) (k : Str) :
    (m.Delete k).cache.find? (fun md => decide (md.Key = k)) = none := by
  rw [MetadataCache.Delete]
  rw [List.find?_eq_none]
  intro x hx
  have := (List.mem_filter.mp hx).2
  simpa using this

/-- Removing a key from the LRU items kills the lookup of that key. -/
theorem lru_filter_find (l : List (Str × Bytes)) (k : Str) :
    (l.filter (fun e => !decide (e.1 = k))).find? (fun e => decide (e.1 = k)) = none := by
  rw [List.find?_eq_none]
  intro x hx
  have := (List.mem_filter.mp hx).2
  simpa using this

/-- `LRUCache.Add` then `LRUCache.Get` of the same key hits, provided
the capacity is at least one. -/
theorem lru_add_get_self (c : LRUCache) (k : Str) (v : Bytes) (h : 1 ≤ c.cap) :
    ((c.Add k v).Get k).1 = some v := by
  obtain ⟨items, cap⟩ := c
  cases cap with
  | zero => exact absurd h (by simp)
  | succ n =>
    simp only [LRUCache.Add, LRUCache.Get, List.take_succ_cons]
    rw [List.find?_cons_of_pos _ (by simp)]

/-! ### Claim theorems: the direct operation contracts -/

/-- C1: for every key `k` and byte sequence `v`, if `Put(k, v)` returns
success, then immediately afterwards `Has(k)` returns true, `GetSize(k)`
returns `len(v)`, and `Get(k)` returns bytes byte-identical to `v`.
(The data-cache capacity is positive for any constructed datastore,
since `lru.New` rejects non-positive sizes.) -/
theorem C1_put_then_read_back (gd gd' : GCSDatastore) (k : Str) (v : Bytes)
    (hcap : 1 ≤ gd.dataCache.cap)
    (hput : gd.Put k v true = (none, gd')) :
    gd'.Has k = (true, none) ∧
    gd'.GetSize k = Except.ok (Int.ofNat v.length) ∧
    (gd'.Get k).1 = Except.ok v := by
  have hgd' :
      ({ gd with
        remote := remoteWrite gd.remote (gd.GCSPath k) v
        mdCache := gd.mdCache.Put k (Int.ofNat v.length)
        dataCache := gd.dataCache.Add k v } : GCSDatastore) = gd' := by
    simpa [GCSDatastore.Put] using hput
  subst hgd'
  refine ⟨?_, ?_, ?_⟩
  · simp [GCSDatastore.Has, MetadataCache.Has, mdPut_find_self]
  · simp [GCSDatastore.GetSize, MetadataCache.Get, mdPut_find_self]
  · have hget := lru_add_get_self gd.dataCache k v hcap
    cases hg : (gd.dataCache.Add k v).Get k with
    | mk o dc' =>
      rw [hg] at hget
      simp only at hget
      subst hget
      simp [GCSDatastore.Get, hg]

/-- Witness for C1 at a concrete datastore: an empty adapter with
prefix `ipfs` and capacity 1, key `/abc`, value `[104, 105]`. -/
def gdEmpty : GCSDatastore := NewGCSDatastore cfgIpfs []

/-- The state after the concrete Put of the C1 witness. -/
def gdPut1 : GCSDatastore := (gdEmpty.Put keyAbc [104, 105] true).2

/-- C1 witness: the hypotheses and conclusion of `C1_put_then_read_back`
hold at the concrete input. -/
theorem C1_witness :
    (1 ≤ gdEmpty.dataCache.cap ∧ gdEmpty.Put keyAbc [104, 105] true = (none, gdPut1)) ∧
    (gdPut1.Has keyAbc = (true, none) ∧
     gdPut1.GetSize keyAbc = Except.ok (Int.ofNat ([104, 105] : Bytes).length) ∧
     (gdPut1.Get keyAbc).1 = Except.ok ([104, 105] : Bytes)) :=
  ⟨⟨by decide, rfl⟩, C1_put_then_read_back gdEmpty gdPut1 keyAbc [104, 105] (by decide) rfl⟩

/-- C4: `Delete(k)` returns success both when the remote delete succeeds
and when the object does not exist (so two consecutive deletes both
succeed); a remote failure other than not-exist is propagated with the
metadata cache and data cache left unchanged; on success the key is
removed from both local structures, so `Has(k)` is false afterwards. -/
theorem C4_delete_semantics (gd : GCSDatastore) (k : Str) :
    (gd.Delete k false).1 = none ∧
    ((gd.Delete k false).2.Delete k false).1 = none ∧
    (gd.Delete k true).1 = some DSError.ErrTransport ∧
    (gd.Delete k true).2.mdCache = gd.mdCache ∧
    (gd.Delete k true).2.dataCache = gd.dataCache ∧
    (gd.Delete k false).2.mdCache.cache.find? (fun md => decide (md.Key = k)) = none ∧
    (gd.Delete k false).2.dataCache.items.find? (fun e => decide (e.1 = k)) = none ∧
    (gd.Delete k false).2.Has k = (false, none) := by
  refine ⟨rfl, rfl, rfl, rfl, rfl, ?_, ?_, ?_⟩
  · exact mdDelete_find_self gd.mdCache k
  · exact lru_filter_find gd.dataCache.items k
  · simp [GCSDatastore.Delete, GCSDatastore.Has, MetadataCache.Has, mdDelete_find_self]

/-- C5: a Put whose remote write fails returns the transport error and
leaves both the metadata cache and the data cache exactly as they were
(the code returns before either structure is touched). -/
theorem C5_put_failure_no_mutation (gd : GCSDatastore) (k : Str) (v : Bytes) :
    (gd.Put k v false).1 = some DSError.ErrTransport ∧
    (gd.Put k v false).2.mdCache = gd.mdCache ∧
    (gd.Put k v false).2.dataCache = gd.dataCache :=
  ⟨rfl, rfl, rfl⟩

/-- C6: a query with a non-empty orders list or a non-empty filters list
is rejected with the unsupported-query error and produces no results,
whatever the other parameters and the index state. -/
theorem C6_query_rejects_orders_filters (gd : GCSDatastore) (q : DSQuery)
    (h : q.Orders ≠ [] ∨ q.Filters ≠ []) :
    gd.Query q = Except.error DSError.UnsupportedQuery := by
  have hc : 0 < q.Orders.length ∨ 0 < q.Filters.length := by
    rcases h with h | h
    · exact Or.inl (List.length_pos.mpr h)
    · exact Or.inr (List.length_pos.mpr h)
  simp [GCSDatastore.Query, hc]

/-- A concrete query carrying one ordering. -/
def qOrdered : DSQuery := ⟨['/'], true, 0, [()], []⟩

/-- C6 witness at a concrete ordered query. -/
theorem C6_witness :
    (qOrdered.Orders ≠ [] ∨ qOrdered.Filters ≠ []) ∧
    gdEmpty.Query qOrdered = Except.error DSError.UnsupportedQuery :=
  ⟨Or.inl (by decide), C6_query_rejects_orders_filters gdEmpty qOrdered (Or.inl (by decide))⟩

/-- C7: for a key absent from the metadata cache, the data cache, and
the remote store, `Has` returns false with a nil error, `GetSize` and
`Get` fail with not-found; and `Has`/`GetSize` answer from the metadata
cache alone - their results are unchanged under any replacement of the
remote contents and the data cache, so they perform no remote I/O. -/
theorem C7_absent_key_negative (gd : GCSDatastore) (k : Str) (r' : Remote) (dc' : LRUCache)
    (hmd : gd.mdCache.cache.find? (fun md => decide (md.Key = k)) = none)
    (hdc : gd.dataCache.items.find? (fun e => decide (e.1 = k)) = none)
    (hr : remoteLookup gd.remote (gd.GCSPath k) = none) :
    gd.Has k = (false, none) ∧
    gd.GetSize k = Except.error DSError.ErrNotFound ∧
    (gd.Get k).1 = Except.error DSError.ErrNotFound ∧
    GCSDatastore.Has { gd with remote := r', dataCache := dc' } k = gd.Has k ∧
    GCSDatastore.GetSize { gd with remote := r', dataCache := dc' } k = gd.GetSize k := by
  refine ⟨?_, ?_, ?_, rfl, rfl⟩
  · simp [GCSDatastore.Has, MetadataCache.Has, hmd]
  · simp [GCSDatastore.GetSize, MetadataCache.Get, hmd]
  · have hmiss : gd.dataCache.Get k = (none, gd.dataCache) := by
      simp [LRUCache.Get, hdc]
    simp [GCSDatastore.Get, hmiss, hr]

/-- C7 witness: the empty adapter, key `/abc`, and an arbitrary
replacement remote and data cache. -/
theorem C7_witness :
    (gdEmpty.mdCache.cache.find? (fun md => decide (md.Key = keyAbc)) = none ∧
     gdEmpty.dataCache.items.find? (fun e => decide (e.1 = keyAbc)) = none ∧
     remoteLookup gdEmpty.remote (gdEmpty.GCSPath keyAbc) = none) ∧
    (gdEmpty.Has keyAbc = (false, none) ∧
     gdEmpty.GetSize keyAbc = Except.error DSError.ErrNotFound ∧
     (gdEmpty.Get keyAbc).1 = Except.error DSError.ErrNotFound ∧
     GCSDatastore.Has { gdEmpty with remote := [(['x'], [1])], dataCache := ⟨[], 5⟩ } keyAbc
       = gdEmpty.Has keyAbc ∧
     GCSDatastore.GetSize { gdEmpty with remote := [(['x'], [1])], dataCache := ⟨[], 5⟩ } keyAbc
       = gdEmpty.GetSize keyAbc) :=
  ⟨⟨rfl, rfl, rfl⟩,
    C7_absent_key_negative gdEmpty keyAbc [(['x'], [1])] ⟨[], 5⟩ rfl rfl rfl⟩

/-- C9: `Sync` returns a nil error and leaves the whole state - the
metadata cache, the data cache and the remote bucket - unchanged; its
body performs no I/O at all. -/
theorem C9_sync_noop (gd : GCSDatastore) (pfx : Str) :
    gd.Sync pfx = (none, gd) := rfl

/-- C10: `Batch` returns a nil batch handle together with a nil error
and changes nothing, so a caller that checks only the error and then
uses the returned batch dereferences nil. -/
theorem C10_batch_nil (gd : GCSDatastore) :
    gd.Batch = (none, none, gd) := rfl

/-! ### Query: iterator snapshot characterization and hydration -/

/-- With a non-positive limit the iterator loop collects every matching
entry (the break conditions never fire). -/
theorem iterCollect_nonpos (p : Str) (limit : Int) (hL : limit ≤ 0) :
    ∀ (l : List Metadata) (c : Int),
      iterCollect p limit l c = l.filter (fun md => hasPrefixStr md.Key p) := by
  intro l
  induction l with
  | nil => intro c; rfl
  | cons md rest ih =>
    intro c
    by_cases hm : hasPrefixStr md.Key p
    · have hbreak : ¬(0 < limit ∧ c + 1 = limit) := fun hc => absurd hL (by omega)
      simp [iterCollect, hm, hbreak, ih (c + 1)]
    · have hbreak : ¬(0 < limit ∧ c = limit) := fun hc => absurd hL (by omega)
      simp [iterCollect, hm, hbreak, ih c]

/-- With a positive limit the iterator loop collects exactly the first
`limit - count` matching entries. -/
theorem iterCollect_pos (p : Str) (limit : Int) (hL : 0 < limit) :
    ∀ (l : List Metadata) (c : Int), 0 ≤ c → c < limit →
      iterCollect p limit l c
        = (l.filter (fun md => hasPrefixStr md.Key p)).take (limit - c).toNat := by
  intro l
  induction l with
  | nil => intro c _ _; simp [iterCollect]
  | cons md rest ih =>
    intro c hc0 hcL
    by_cases hm : hasPrefixStr md.Key p
    · have htn : (limit - c).toNat = (limit - (c + 1)).toNat + 1 := by omega
      by_cases hstop : c + 1 = limit
      · have h1 : (limit - c).toNat = 1 := by omega
        rw [List.filter_cons]
        simp [iterCollect, hm, hL, hstop, h1]
      · have hc1 : c + 1 < limit := by omega
        have hcond : ¬(0 < limit ∧ c + 1 = limit) := fun h => hstop h.2
        simp only [iterCollect, hm, if_true, hcond, if_false]
        rw [ih (c + 1) (by omega) hc1]
        rw [List.filter_cons]
        simp only [hm, if_true]
        rw [htn, List.take_succ_cons]
    · have hcond : ¬(0 < limit ∧ c = limit) := fun h => absurd hcL (by omega)
      simp only [iterCollect, hm, Bool.false_eq_true, if_false, hcond]
      rw [ih c hc0 hcL, List.filter_cons]
      simp [hm]

/-- `Get` changes neither the remote bucket nor the configuration. -/
theorem Get_preserves_remote_config (gd : GCSDatastore) (k : Str) :
    (gd.Get k).2.remote = gd.remote ∧ (gd.Get k).2.config = gd.config := by
  rw [GCSDatastore.Get]
  rcases hdc : gd.dataCache.Get k with ⟨o, dc'⟩
  cases o with
  | some b => exact ⟨rfl, rfl⟩
  | none =>
    cases hr : remoteLookup gd.remote (gd.GCSPath k) with
    | none => exact ⟨rfl, rfl⟩
    | some data => exact ⟨rfl, rfl⟩

/-- `Get` succeeds whenever the object exists remotely (whatever the
data cache holds). -/
theorem Get_ok_of_remote (gd : GCSDatastore) (k : Str)
    (h : remoteLookup gd.remote (gd.GCSPath k) ≠ none) :
    ∃ b, (gd.Get k).1 = Except.ok b := by
  rw [GCSDatastore.Get]
  rcases hdc : gd.dataCache.Get k with ⟨o, dc'⟩
  cases o with
  | some b => exact ⟨b, rfl⟩
  | none =>
    cases hr : remoteLookup gd.remote (gd.GCSPath k) with
    | none => exact absurd hr h
    | some data => exact ⟨data, rfl⟩

/-- When the query is keys-only, or every snapshot entry is backed by a
remote object, hydration completes without error and produces one entry
per snapshot record, carrying that record's key and size. -/
theorem queryHydrate_complete (ko : Bool) :
    ∀ (l : List Metadata) (gd : GCSDatastore),
      (ko = true ∨ ∀ md ∈ l,
        remoteLookup gd.remote (GCSPathOf gd.config.Prefix (dsKeyStr md.Key)) ≠ none) →
      (queryHydrate ko gd l).2.1 = none ∧
      (queryHydrate ko gd l).1.map (fun e => (e.Key, e.Size))
        = l.map (fun md => (md.Key, md.Size)) := by
  intro l
  induction l with
  | nil => intro gd _; exact ⟨rfl, rfl⟩
  | cons v rest ih =>
    intro gd h
    by_cases hko : ko = true
    · subst hko
      have := ih gd (Or.inl rfl)
      simp [queryHydrate, this.1, this.2]
    · have hkoF : ko = false := Bool.eq_false_iff.mpr hko
      subst hkoF
      have hrem : ∀ md ∈ v :: rest,
          remoteLookup gd.remote (GCSPathOf gd.config.Prefix (dsKeyStr md.Key)) ≠ none := by
        rcases h with h | h
        · exact absurd h hko
        · exact h
      have hv := hrem v (List.mem_cons_self v rest)
      obtain ⟨b, hb⟩ := Get_ok_of_remote gd (dsKeyStr v.Key) hv
      rcases hg : gd.Get (dsKeyStr v.Key) with ⟨res, gd'⟩
      rw [hg] at hb
      simp only at hb
      subst hb
      have hfr := Get_preserves_remote_config gd (dsKeyStr v.Key)
      rw [hg] at hfr
      simp only at hfr
      have ih' := ih gd' (Or.inr (fun md hmd => by
        rw [hfr.1, hfr.2]
        exact hrem md (List.mem_cons_of_mem v hmd)))
      simp [queryHydrate, hg, ih'.1, ih'.2]

/-- C3: a query without orderings or filters succeeds and (provided
every snapshotted key can be hydrated - trivially so for a keys-only
query) produces one entry per snapshotted index record, carrying that
record's key and indexed size; the snapshot is exactly the set of
indexed keys starting with the query prefix when the limit is
non-positive, and the first `limit` of them otherwise (hence at most
`limit` entries, all of them matching). -/
theorem C3_query_exact_snapshot (gd : GCSDatastore) (q : DSQuery)
    (ho : q.Orders = []) (hf : q.Filters = [])
    (hava : q.KeysOnly = true ∨ ∀ md ∈ gd.mdCache.Iterator q.Prefix q.Limit,
        remoteLookup gd.remote (GCSPathOf gd.config.Prefix (dsKeyStr md.Key)) ≠ none) :
    gd.Query q
      = Except.ok (queryHydrate q.KeysOnly gd (gd.mdCache.Iterator q.Prefix q.Limit)) ∧
    (queryHydrate q.KeysOnly gd (gd.mdCache.Iterator q.Prefix q.Limit)).2.1 = none ∧
    (queryHydrate q.KeysOnly gd (gd.mdCache.Iterator q.Prefix q.Limit)).1.map
        (fun e => (e.Key, e.Size))
      = (gd.mdCache.Iterator q.Prefix q.Limit).map (fun md => (md.Key, md.Size)) ∧
    (q.Limit ≤ 0 → gd.mdCache.Iterator q.Prefix q.Limit
      = gd.mdCache.cache.filter (fun md => hasPrefixStr md.Key q.Prefix)) ∧
    (0 < q.Limit → gd.mdCache.Iterator q.Prefix q.Limit
      = (gd.mdCache.cache.filter (fun md => hasPrefixStr md.Key q.Prefix)).take
          q.Limit.toNat) := by
  have hq : ¬(0 < q.Orders.length ∨ 0 < q.Filters.length) := by simp [ho, hf]
  have hcomp := queryHydrate_complete q.KeysOnly (gd.mdCache.Iterator q.Prefix q.Limit) gd hava
  refine ⟨?_, hcomp.1, hcomp.2, ?_, ?_⟩
  · simp [GCSDatastore.Query, hq]
  · intro hL
    exact iterCollect_nonpos q.Prefix q.Limit hL gd.mdCache.cache 0
  · intro hL
    have := iterCollect_pos q.Prefix q.Limit hL gd.mdCache.cache 0 le_rfl hL
    simpa using this

/-- A datastore whose index holds the keys `/a` and `/b`, for the C3
witness. -/
def gdQ : GCSDatastore :=
  { config := cfgIpfs
    remote := []
    mdCache := ⟨[⟨['/', 'a'], 1⟩, ⟨['/', 'b'], 2⟩]⟩
    dataCache := ⟨[], 1⟩ }

/-- A plain keys-only query: prefix `/`, no limit, no orders/filters. -/
def qPlain : DSQuery := ⟨['/'], true, 0, [], []⟩

/-- C3 witness: the hypotheses and conclusion of
`C3_query_exact_snapshot` hold at the concrete two-key index. -/
theorem C3_witness :
    (qPlain.Orders = [] ∧ qPlain.Filters = [] ∧ qPlain.KeysOnly = true) ∧
    (gdQ.Query qPlain
      = Except.ok (queryHydrate qPlain.KeysOnly gdQ (gdQ.mdCache.Iterator qPlain.Prefix qPlain.Limit)) ∧
    (queryHydrate qPlain.KeysOnly gdQ (gdQ.mdCache.Iterator qPlain.Prefix qPlain.Limit)).2.1 = none ∧
    (queryHydrate qPlain.KeysOnly gdQ (gdQ.mdCache.Iterator qPlain.Prefix qPlain.Limit)).1.map
        (fun e => (e.Key, e.Size))
      = (gdQ.mdCache.Iterator qPlain.Prefix qPlain.Limit).map (fun md => (md.Key, md.Size)) ∧
    (qPlain.Limit ≤ 0 → gdQ.mdCache.Iterator qPlain.Prefix qPlain.Limit
      = gdQ.mdCache.cache.filter (fun md => hasPrefixStr md.Key qPlain.Prefix)) ∧
    (0 < qPlain.Limit → gdQ.mdCache.Iterator qPlain.Prefix qPlain.Limit
      = (gdQ.mdCache.cache.filter (fun md => hasPrefixStr md.Key qPlain.Prefix)).take
          qPlain.Limit.toNat)) :=
  ⟨⟨rfl, rfl, rfl⟩, C3_query_exact_snapshot gdQ qPlain rfl rfl (Or.inl rfl)⟩

/-! ### Reload: trimming, listing and the Put/LoadMetadata round trip -/

/-- A verified string-prefix is literally the front of the string. -/
theorem isPrefixL_take (p : Str) : ∀ (s : Str), isPrefixL p s = true → s.take p.length = p := by
  induction p with
  | nil => intro s _; simp
  | cons a as ih =>
    intro s h
    cases s with
    | nil => simp [isPrefixL] at h
    | cons b bs =>
      simp only [isPrefixL, Bool.and_eq_true, decide_eq_true_eq] at h
      obtain ⟨hab, hrest⟩ := h
      subst hab
      simp [List.take_succ_cons, ih bs hrest]

/-- Putting the trimmed prefix back yields the original string. -/
theorem trim_append (p s : Str) (h : isPrefixL p s = true) : p ++ TrimPrefix s p = s := by
  have ht := isPrefixL_take p s h
  rw [TrimPrefix, if_pos h]
  conv_rhs => rw [← List.take_append_drop p.length s]
  rw [ht]

/-- Trimming a common prefix is injective on strings that carry it. -/
theorem trim_inj (p n₁ n₂ : Str) (h₁ : isPrefixL p n₁ = true) (h₂ : isPrefixL p n₂ = true)
    (he : TrimPrefix n₁ p = TrimPrefix n₂ p) : n₁ = n₂ := by
  have t₁ := trim_append p n₁ h₁
  have t₂ := trim_append p n₂ h₂
  rw [← t₁, ← t₂, he]

/-- In a bucket with pairwise distinct object names, looking up a
member object finds exactly it. -/
theorem remote_find_of_mem (r : Remote) (name : Str) (bs : Bytes)
    (hnd : (r.map Prod.fst).Nodup) (hmem : (name, bs) ∈ r) :
    r.find? (fun e => decide (e.1 = name)) = some (name, bs) := by
  induction r with
  | nil => cases hmem
  | cons a rest ih =>
    rw [List.map_cons, List.nodup_cons] at hnd
    rcases List.mem_cons.mp hmem with h | h
    · subst h
      exact List.find?_cons_of_pos _ (by simp)
    · have hin : name ∈ rest.map Prod.fst := List.mem_map_of_mem Prod.fst h
      have hne : ¬(a.1 = name) := fun he => hnd.1 (by rw [he]; exact hin)
      rw [List.find?_cons_of_neg _ (by simpa using hne)]
      exact ih hnd.2 h

/-- Objects whose trimmed name differs from `k` leave the metadata
entry of `k` alone during the bulk-load fold. -/
theorem loadFold_untouched (p : Str) :
    ∀ (l : List (Str × Bytes)) (m : MetadataCache) (k : Str),
      (∀ e ∈ l, TrimPrefix e.1 p ≠ k) →
      (loadFold p l m).cache.find? (fun md => decide (md.Key = k))
        = m.cache.find? (fun md => decide (md.Key = k)) := by
  intro l
  induction l with
  | nil => intro m k _; rfl
  | cons a rest ih =>
    intro m k h
    have h1 : TrimPrefix a.1 p ≠ k := h a (List.mem_cons_self a rest)
    rw [show loadFold p (a :: rest) m
          = loadFold p rest (m.Put (TrimPrefix a.1 p) (Int.ofNat a.2.length)) from rfl]
    rw [ih _ k (fun e he => h e (List.mem_cons_of_mem a he))]
    exact mdPut_find_other m (TrimPrefix a.1 p) k (Int.ofNat a.2.length) (Ne.symm h1)

/-- After the bulk-load fold over a duplicate-free, prefix-scoped
listing, a listed object's trimmed name maps to its size. -/
theorem loadFold_present (p : Str) :
    ∀ (l : List (Str × Bytes)) (m : MetadataCache) (name : Str) (bs : Bytes),
      (name, bs) ∈ l →
      (l.map Prod.fst).Nodup →
      (∀ e ∈ l, isPrefixL p e.1 = true) →
      (loadFold p l m).cache.find? (fun md => decide (md.Key = TrimPrefix name p))
        = some ⟨TrimPrefix name p, Int.ofNat bs.length⟩ := by
  intro l
  induction l with
  | nil => intro m name bs hmem _ _; cases hmem
  | cons a rest ih =>
    intro m name bs hmem hnd hpfx
    rw [List.map_cons, List.nodup_cons] at hnd
    rcases List.mem_cons.mp hmem with h | h
    · have ha : a = (name, bs) := h.symm
      subst ha
      rw [show loadFold p ((name, bs) :: rest) m
            = loadFold p rest (m.Put (TrimPrefix name p) (Int.ofNat bs.length)) from rfl]
      rw [loadFold_untouched p rest _ (TrimPrefix name p) ?huntouched]
      · exact mdPut_find_self m (TrimPrefix name p) (Int.ofNat bs.length)
      case huntouched =>
        intro e he heq
        have hp1 : isPrefixL p e.1 = true := hpfx e (List.mem_cons_of_mem _ he)
        have hp2 : isPrefixL p name = true := hpfx (name, bs) (List.mem_cons_self _ _)
        have he1 : e.1 = name := trim_inj p e.1 name hp1 hp2 heq
        have hnd1 : name ∉ rest.map Prod.fst := hnd.1
        refine hnd1 ?_
        rw [← he1]
        exact List.mem_map_of_mem Prod.fst he
    · rw [show loadFold p (a :: rest) m
            = loadFold p rest (m.Put (TrimPrefix a.1 p) (Int.ofNat a.2.length)) from rfl]
      exact ih _ name bs h hnd.2 (fun e he => hpfx e (List.mem_cons_of_mem a he))

/-- Writing an object makes it a member of the bucket contents. -/
theorem remoteWrite_mem (r : Remote) (name : Str) (v : Bytes) :
    (name, v) ∈ remoteWrite r name v := by
  rw [remoteWrite]
  by_cases h : r.any (fun e => decide (e.1 = name))
  · simp only [h, if_true]
    rw [List.any_eq_true] at h
    obtain ⟨e, he, hpe⟩ := h
    simp only [decide_eq_true_eq] at hpe
    refine List.mem_map.mpr ⟨e, he, ?_⟩
    simp [hpe]
  · simp [h]

/-- Writing an object preserves distinctness of the object names. -/
theorem remoteWrite_nodup (r : Remote) (name : Str) (v : Bytes)
    (hnd : (r.map Prod.fst).Nodup) : ((remoteWrite r name v).map Prod.fst).Nodup := by
  rw [remoteWrite]
  by_cases h : r.any (fun e => decide (e.1 = name))
  · simp only [h, if_true]
    have hmaps : (r.map (fun e => if e.1 = name then (name, v) else e)).map Prod.fst
        = r.map Prod.fst := by
      rw [List.map_map]
      apply List.map_congr_left
      intro e _
      by_cases hh : e.1 = name <;> simp [hh]
    rw [hmaps]
    exact hnd
  · simp only [h, Bool.false_eq_true, if_false]
    rw [List.map_append]
    have hnot : name ∉ r.map Prod.fst := by
      intro hmem
      obtain ⟨e, he, hfst⟩ := List.mem_map.mp hmem
      rw [Bool.not_eq_true, List.any_eq_false] at h
      exact h e he (by simp [hfst])
    refine List.Nodup.append hnd (List.nodup_singleton _) ?_
    intro a ha hb
    simp only [List.map_cons, List.map_nil, List.mem_singleton] at hb
    subst hb
    exact hnot ha

/-- Reload core: after bulk-load over a duplicate-free bucket, an object
under the prefix whose GCS path round-trips through trimming is served
by Has, GetSize and Get under its trimmed name. -/
theorem reload_present (cfg : Config) (r : Remote) (name : Str) (bs : Bytes)
    (hnd : (r.map Prod.fst).Nodup)
    (hmem : (name, bs) ∈ r)
    (hpfx : hasPrefixStr name cfg.Prefix = true)
    (hrt : GCSPathOf cfg.Prefix (TrimPrefix name cfg.Prefix) = name) :
    (NewGCSDatastore cfg r).LoadMetadata.Has (TrimPrefix name cfg.Prefix) = (true, none) ∧
    (NewGCSDatastore cfg r).LoadMetadata.GetSize (TrimPrefix name cfg.Prefix)
      = Except.ok (Int.ofNat bs.length) ∧
    ((NewGCSDatastore cfg r).LoadMetadata.Get (TrimPrefix name cfg.Prefix)).1
      = Except.ok bs := by
  have hfind : (loadFold cfg.Prefix (r.filter (fun e => hasPrefixStr e.1 cfg.Prefix))
        NewMetadataCache).cache.find?
        (fun md => decide (md.Key = TrimPrefix name cfg.Prefix))
      = some ⟨TrimPrefix name cfg.Prefix, Int.ofNat bs.length⟩ := by
    apply loadFold_present
    · exact List.mem_filter.mpr ⟨hmem, hpfx⟩
    · exact List.Nodup.sublist (List.Sublist.map Prod.fst (List.filter_sublist r)) hnd
    · intro e he
      exact (List.mem_filter.mp he).2
  have hget : remoteLookup r (GCSPathOf cfg.Prefix (TrimPrefix name cfg.Prefix)) = some bs := by
    rw [hrt, remoteLookup, remote_find_of_mem r name bs hnd hmem]
    rfl
  refine ⟨?_, ?_, ?_⟩
  · simp [GCSDatastore.Has, GCSDatastore.LoadMetadata, NewGCSDatastore, MetadataCache.Has,
      hfind]
  · simp [GCSDatastore.GetSize, GCSDatastore.LoadMetadata, NewGCSDatastore, MetadataCache.Get,
      hfind]
  · simp [GCSDatastore.Get, GCSDatastore.LoadMetadata, NewGCSDatastore, LRUCache.Get,
      GCSDatastore.GCSPath, hget]

/-- C2 (amended): the reload property holds for keys and prefixes whose
GCS path round-trips through the listing's prefix trim - the object
name starts with the configured prefix and trimming the prefix from the
name gives back the key.  Part one: any such pre-existing object is
served by Has/GetSize/Get after bulk-load on a fresh adapter, with no
Put issued through it.  Part two: a key written by Put round-trips to a
fresh adapter over the same bucket and prefix, indexed under the same
key string Put used.  (The unamended claim - for every configured
prefix - is false: see the counterexample with the plugin's default
prefix `ipfs/`.) -/
theorem C2_reload_amended :
    (∀ (cfg : Config) (r : Remote) (name : Str) (bs : Bytes),
      (r.map Prod.fst).Nodup →
      (name, bs) ∈ r →
      hasPrefixStr name cfg.Prefix = true →
      GCSPathOf cfg.Prefix (TrimPrefix name cfg.Prefix) = name →
      ((NewGCSDatastore cfg r).LoadMetadata.Has (TrimPrefix name cfg.Prefix) = (true, none) ∧
       (NewGCSDatastore cfg r).LoadMetadata.GetSize (TrimPrefix name cfg.Prefix)
         = Except.ok (Int.ofNat bs.length) ∧
       ((NewGCSDatastore cfg r).LoadMetadata.Get (TrimPrefix name cfg.Prefix)).1
         = Except.ok bs)) ∧
    (∀ (gd gd' : GCSDatastore) (k : Str) (v : Bytes),
      (gd.remote.map Prod.fst).Nodup →
      hasPrefixStr (GCSPathOf gd.config.Prefix k) gd.config.Prefix = true →
      TrimPrefix (GCSPathOf gd.config.Prefix k) gd.config.Prefix = k →
      gd.Put k v true = (none, gd') →
      ((NewGCSDatastore gd.config gd'.remote).LoadMetadata.Has k = (true, none) ∧
       (NewGCSDatastore gd.config gd'.remote).LoadMetadata.GetSize k
         = Except.ok (Int.ofNat v.length) ∧
       ((NewGCSDatastore gd.config gd'.remote).LoadMetadata.Get k).1 = Except.ok v)) := by
  constructor
  · exact fun cfg r name bs hnd hmem hpfx hrt => reload_present cfg r name bs hnd hmem hpfx hrt
  · intro gd gd' k v hnd hpfx hrt hput
    have hgd' :
        ({ gd with
          remote := remoteWrite gd.remote (gd.GCSPath k) v
          mdCache := gd.mdCache.Put k (Int.ofNat v.length)
          dataCache := gd.dataCache.Add k v } : GCSDatastore) = gd' := by
      simpa [GCSDatastore.Put] using hput
    have hrem : gd'.remote = remoteWrite gd.remote (GCSPathOf gd.config.Prefix k) v := by
      rw [← hgd']
      rfl
    have hnd2 : (gd'.remote.map Prod.fst).Nodup := by
      rw [hrem]
      exact remoteWrite_nodup gd.remote (GCSPathOf gd.config.Prefix k) v hnd
    have hmem2 : (GCSPathOf gd.config.Prefix k, v) ∈ gd'.remote := by
      rw [hrem]
      exact remoteWrite_mem gd.remote (GCSPathOf gd.config.Prefix k) v
    have hres := reload_present gd.config gd'.remote (GCSPathOf gd.config.Prefix k) v
      hnd2 hmem2 hpfx (by rw [hrt])
    rw [hrt] at hres
    exact hres

/-- The bucket contents used by the C2 witness: the single object
`ipfs/abc` holding two bytes, as written by Put with prefix `ipfs`. -/
def rIpfsAbc : Remote := [(['i', 'p', 'f', 's', '/', 'a', 'b', 'c'], [9, 8])]

/-- The object name `ipfs/abc` of the C2 witness bucket. -/
def nameIpfsAbc : Str := ['i', 'p', 'f', 's', '/', 'a', 'b', 'c']

/-- C2 witness: both parts of `C2_reload_amended` hold concretely - a
pre-existing object `ipfs/abc` is served after bulk-load under the key
`/abc`, and the key `/abc` written by Put on the empty adapter is found
again by a fresh adapter after bulk-load. -/
theorem C2_witness :
    (((rIpfsAbc.map Prod.fst).Nodup ∧ (nameIpfsAbc, ([9, 8] : Bytes)) ∈ rIpfsAbc ∧
      hasPrefixStr nameIpfsAbc cfgIpfs.Prefix = true ∧
      GCSPathOf cfgIpfs.Prefix (TrimPrefix nameIpfsAbc cfgIpfs.Prefix) = nameIpfsAbc) ∧
     ((NewGCSDatastore cfgIpfs rIpfsAbc).LoadMetadata.Has (TrimPrefix nameIpfsAbc cfgIpfs.Prefix)
        = (true, none) ∧
      (NewGCSDatastore cfgIpfs rIpfsAbc).LoadMetadata.GetSize
          (TrimPrefix nameIpfsAbc cfgIpfs.Prefix)
        = Except.ok (Int.ofNat ([9, 8] : Bytes).length) ∧
      ((NewGCSDatastore cfgIpfs rIpfsAbc).LoadMetadata.Get
          (TrimPrefix nameIpfsAbc cfgIpfs.Prefix)).1
        = Except.ok ([9, 8] : Bytes))) ∧
    (((gdEmpty.remote.map Prod.fst).Nodup ∧
      hasPrefixStr (GCSPathOf gdEmpty.config.Prefix keyAbc) gdEmpty.config.Prefix = true ∧
      TrimPrefix (GCSPathOf gdEmpty.config.Prefix keyAbc) gdEmpty.config.Prefix = keyAbc ∧
      gdEmpty.Put keyAbc [104, 105] true = (none, gdPut1)) ∧
     ((NewGCSDatastore gdEmpty.config gdPut1.remote).LoadMetadata.Has keyAbc = (true, none) ∧
      (NewGCSDatastore gdEmpty.config gdPut1.remote).LoadMetadata.GetSize keyAbc
        = Except.ok (Int.ofNat ([104, 105] : Bytes).length) ∧
      ((NewGCSDatastore gdEmpty.config gdPut1.remote).LoadMetadata.Get keyAbc).1
        = Except.ok ([104, 105] : Bytes))) :=
  ⟨⟨⟨by decide, by decide, by decide, by decide⟩,
    C2_reload_amended.1 cfgIpfs rIpfsAbc nameIpfsAbc [9, 8]
      (by decide) (by decide) (by decide) (by decide)⟩,
   ⟨⟨by decide, by decide, by decide, rfl⟩,
    C2_reload_amended.2 gdEmpty gdPut1 keyAbc [104, 105]
      (by decide) (by decide) (by decide) rfl⟩⟩

/-- The state after Put of `/abc` on a fresh adapter configured with the
plugin's default prefix `ipfs/`. -/
def gdSlashPut : GCSDatastore := ((NewGCSDatastore cfgIpfsSlash []).Put keyAbc [1, 2, 3] true).2

/-- C2 counterexample: with the plugin's default prefix `ipfs/`, Put of
the key `/abc` succeeds and writes the object `ipfs/abc`, but a fresh
adapter over the resulting bucket indexes the trimmed name `abc` during
bulk-load, so `Has` of the key string Put used returns false (and
GetSize fails), refuting the claim for that configured prefix. -/
theorem C2_counterexample :
    ((NewGCSDatastore cfgIpfsSlash []).Put keyAbc [1, 2, 3] true).1 = none ∧
    (NewGCSDatastore cfgIpfsSlash gdSlashPut.remote).LoadMetadata.Has keyAbc = (false, none) ∧
    (NewGCSDatastore cfgIpfsSlash gdSlashPut.remote).LoadMetadata.GetSize keyAbc
      = Except.error DSError.ErrNotFound ∧
    TrimPrefix (GCSPathOf cfgIpfsSlash.Prefix keyAbc) cfgIpfsSlash.Prefix
      = ['a', 'b', 'c'] := by
  refine ⟨by decide, by decide, rfl, by decide⟩
